import Mathlib

/-!
Shallow embedding of `variant_annotator.py` (a CLI tool that annotates dbSNP
RSIDs via the Ensembl VEP API) together with theorems settling the frozen
claims about it.

The embedding models Python values flowing through the program as a `Json`
inductive; Python dictionaries are association lists with first-match lookup
and in-place update; machine integers are `Int`/`Nat`; code paths that raise
an exception escaping the function under scrutiny are modelled with `Option`
(`none` = uncaught exception) or an explicit `crash` constructor.
-/

namespace VariantAnnotator

/-- JSON-like values, modelling the Python values that flow through the
program (`None`, booleans, integers, strings, lists, dicts). -/
inductive Json where
  | null
  | bool (b : Bool)
  | num (n : Int)
  | str (s : String)
  | arr (elems : List Json)
  | obj (fields : List (String × Json))

/-- Python truthiness (`bool(v)`) for the modelled values:
`None`, `False`, `0`, `""`, `[]`, `{}` are falsy, everything else truthy. -/
def pyTruthy : Json → Bool
  | .null => false
  | .bool b => b
  | .num n => n != 0
  | .str s => s != ""
  | .arr l => !l.isEmpty
  | .obj f => !f.isEmpty

/-- `d.get(k)` on a Python dict modelled as an association list:
first matching key wins (real dicts have unique keys). -/
def dictGet (d : List (String × Json)) (k : String) : Option Json :=
  match d with
  | [] => none
  | (k1, v) :: rest => if k1 = k then some v else dictGet rest k

/-- `k in d` on a Python dict. -/
def dictHasKey (d : List (String × Json)) (k : String) : Bool :=
  (dictGet d k).isSome

/-- `d.get(k, default)` on a Python dict. -/
def pyGetD (d : List (String × Json)) (k : String) (dflt : Json) : Json :=
  (dictGet d k).getD dflt

/-- `d[k] = v` on a Python dict: update in place if the key exists,
otherwise append (insertion order preserved, as in Python 3.7+). -/
def dictSet (d : List (String × Json)) (k : String) (v : Json) :
    List (String × Json) :=
  match d with
  | [] => [(k, v)]
  | (k1, v1) :: rest =>
      if k1 = k then (k1, v) :: rest else (k1, v1) :: dictSet rest k v

mutual

/-- Python `repr` of a modelled value.  Exact for `None`, booleans, integers
and common strings; string quoting is modelled with plain single quotes
(Python's escaping of quotes inside the string is not needed by any claim). -/
def pyRepr : Json → String
  | .null => "None"
  | .bool b => if b then "True" else "False"
  | .num n => toString n
  | .str s => "'" ++ s ++ "'"
  | .arr l => "[" ++ String.intercalate ", " (pyReprList l) ++ "]"
  | .obj f => "\x7b" ++ String.intercalate ", " (pyReprObj f) ++ "\x7d"

def pyReprList : List Json → List String
  | [] => []
  | v :: rest => pyRepr v :: pyReprList rest

def pyReprObj : List (String × Json) → List String
  | [] => []
  | (k, v) :: rest => ("'" ++ k ++ "': " ++ pyRepr v) :: pyReprObj rest

end

/-- Python `str(v)` of a modelled value (`str` of a string is the string
itself; containers fall back to their `repr`). -/
def pyStr : Json → String
  | .str s => s
  | v => pyRepr v

/-- Characters stripped by Python's `str.strip()` with no arguments
(the ASCII whitespace set; further Unicode space characters exist in
Python's table but are not needed by any claim). -/
def pyIsSpace (c : Char) : Bool :=
  c = ' ' || c = '\t' || c = '\n' || c = '\r' || c = '\x0b' || c = '\x0c'

/-- Python `s.strip()`. -/
def pyStrip (s : String) : String :=
  ⟨((s.data.dropWhile pyIsSpace).reverse.dropWhile pyIsSpace).reverse⟩

/-- Is `p` a prefix of `s` (Python `s.startswith(p)`), computed on the
character lists. -/
def isPreList : List Char → List Char → Bool
  | [], _ => true
  | _ :: _, [] => false
  | p :: ps, c :: cs => p = c && isPreList ps cs

def strHasPre (p s : String) : Bool :=
  isPreList p.data s.data

/-- Code-point lexicographic `≤` on character lists — the order Python's
`sorted` uses on strings. -/
def lexLeb : List Char → List Char → Bool
  | [], _ => true
  | _ :: _, [] => false
  | a :: as, b :: bs => if a < b then true else if a = b then lexLeb as bs else false

def strLeb (a b : String) : Bool :=
  lexLeb a.data b.data

/-- Python's `sorted` on a list of strings. -/
def sortStrings (l : List String) : List String :=
  List.insertionSort (fun a b => strLeb a b = true) l

/-- ASCII decimal digit. -/
def isDecimalDigit (c : Char) : Bool :=
  '0' ≤ c && c ≤ '9'

/-- Characters accepted by Python's `str.isdigit`.  Python's table is the
set of characters with Unicode property Numeric_Type = Digit or Decimal:
this model lists the decimal digits together with representative
non-decimal members of the table (superscript digits, Arabic-Indic digits,
fullwidth digits); the real table contains further such characters. -/
def pyIsDigitChar (c : Char) : Bool :=
  isDecimalDigit c
    || c = '¹' || c = '²' || c = '³' || c = '⁰'
    || ('⁴' ≤ c && c ≤ '⁹')
    || ('٠' ≤ c && c ≤ '٩')
    || ('０' ≤ c && c ≤ '９')

/-- Python `s.isdigit()`: non-empty and every character a digit character. -/
def pyIsDigitStr (s : String) : Bool :=
  s ≠ "" && s.data.all pyIsDigitChar

/-- Python `int(s)` on a string: strips whitespace, accepts an optional
sign followed by one or more decimal digits; `none` models the
`ValueError` raised on any other input. -/
def digitsToNat : List Char → Option Nat
  | [] => none
  | cs =>
      if cs.all isDecimalDigit then
        some (cs.foldl (fun acc c => acc * 10 + (c.toNat - '0'.toNat)) 0)
      else none

def pyIntOfString (s : String) : Option Int :=
  match (pyStrip s).data with
  | '-' :: rest => (digitsToNat rest).map (fun n => -(n : Int))
  | '+' :: rest => (digitsToNat rest).map (fun n => (n : Int))
  | l => (digitsToNat l).map (fun n => (n : Int))

/-! ## `read_rsids` (variant_annotator.py lines 46-80)

The file is modelled as its list of lines (Python's `for line in f`); the
trailing newline of each line is removed by `strip()` either way.  The
`bad_ids` accumulator only feeds warning messages on stderr and is not
modelled.  A file that cannot be opened exits the process (fatal), which is
outside every claim. -/

/-- The loop of `read_rsids`, accumulating accepted identifiers in order. -/
def read_rsids_go : List String → List String → List String
  | [], acc => acc
  | line :: rest, acc =>
      let rsid := pyStrip line
      if rsid = "" then read_rsids_go rest acc
      else if !(strHasPre "rs" rsid) || !(pyIsDigitStr (rsid.drop 2)) then
        read_rsids_go rest acc
      else read_rsids_go rest (acc ++ [rsid])

/-- `read_rsids` from variant_annotator.py: keeps the stripped lines that
start with `"rs"` and whose remainder satisfies Python's `str.isdigit`. -/
def read_rsids (lines : List String) : List String :=
  read_rsids_go lines []

/-! ## `query_ensembl_api` (variant_annotator.py lines 83-142)

The network is modelled as a function from attempt number to the outcome of
`requests.get` on that attempt: either a raised
`requests.exceptions.RequestException` or a response with a status code, an
optional `Retry-After` header value and a body (`none` when `.json()` would
raise, i.e. the body is not valid JSON; with a modern `requests`,
`JSONDecodeError` is a `RequestException` and is caught by the handler).
`time.sleep` is observationally irrelevant except that `time.sleep(n)`
raises `ValueError` for negative `n`, which the handler does not catch. -/

/-- Outcome of one `requests.get` call. -/
inductive Attempt where
  | exn
  | resp (status : Nat) (retryAfter : Option String) (body : Option Json)

/-- Which `return` of `query_ensembl_api` produced the result:
`badRequest` = the `== 400` branch (line 120), `notFound` = the `== 404`
branch (line 123), `serverErrorExhausted` = the `>= 500` branch on the last
attempt (line 130), `parsed` = `return response.json()` (line 134),
`exceptionExhausted` = the `except` handler on the last attempt (line 142),
`loopEnded` = the loop ran zero times and the function fell off the end,
returning Python `None`. -/
inductive ExitKind where
  | badRequest
  | notFound
  | serverErrorExhausted
  | parsed
  | exceptionExhausted
  | loopEnded
deriving DecidableEq

/-- Result of a call: either a returned value (tagged with the producing
return site) or an exception escaping to the caller. -/
inductive QValue where
  | crash
  | ret (v : Json) (k : ExitKind)

/-- A run of `query_ensembl_api`: its result and how many HTTP requests
were made. -/
structure QueryRun where
  result : QValue
  requests : Nat

/-- The empty fallback value `{}` returned on failure. -/
def emptyDict : Json := .obj []

/-- Account for one more HTTP request around a recursive call of the
retry loop. -/
def bump (r : QueryRun) : QueryRun := ⟨r.result, r.requests + 1⟩

/-- The retry loop of `query_ensembl_api`; `remaining` counts the loop
iterations still to run, so the current attempt index (Python's `attempt`)
is `maxRetries - remaining` and Python's guard `attempt < max_retries - 1`
is `remaining > 1`, i.e. `rem > 0` after peeling one iteration off. -/
def query_go (env : Nat → Attempt) (maxRetries : Nat) : Nat → QueryRun
  | 0 => ⟨.ret .null .loopEnded, 0⟩
  | rem + 1 =>
    let attempt := maxRetries - (rem + 1)
    match env attempt with
    | .exn =>
        -- except requests.exceptions.RequestException
        if rem > 0 then
          bump (query_go env maxRetries rem)
        else ⟨.ret emptyDict .exceptionExhausted, 1⟩
    | .resp status retryAfter body =>
        if status = 429 ∧ rem > 0 then
          -- rate limited and not the final attempt:
          -- retry_after = int(response.headers.get('Retry-After', retry_delay))
          match retryAfter with
          | none => bump (query_go env maxRetries rem)
          | some h =>
              match pyIntOfString h with
              | none => ⟨.crash, 1⟩          -- int() raises ValueError, uncaught
              | some n =>
                  if n < 0 then ⟨.crash, 1⟩  -- time.sleep raises ValueError, uncaught
                  else bump (query_go env maxRetries rem)
        else if status = 400 then ⟨.ret emptyDict .badRequest, 1⟩
        else if status = 404 then ⟨.ret emptyDict .notFound, 1⟩
        else if 500 ≤ status then
          if rem > 0 then bump (query_go env maxRetries rem)
          else ⟨.ret emptyDict .serverErrorExhausted, 1⟩
        else if 400 ≤ status then
          -- response.raise_for_status() raises HTTPError (a RequestException)
          -- for any remaining 4xx status, including a 429 on the final
          -- attempt; the except handler retries or returns {}
          if rem > 0 then bump (query_go env maxRetries rem)
          else ⟨.ret emptyDict .exceptionExhausted, 1⟩
        else
          match body with
          | some j => ⟨.ret j .parsed, 1⟩    -- return response.json()
          | none =>
              -- response.json() raises, caught as a RequestException
              if rem > 0 then bump (query_go env maxRetries rem)
              else ⟨.ret emptyDict .exceptionExhausted, 1⟩

/-- `query_ensembl_api` from variant_annotator.py, parameterized by the
network behaviour `env`. With `max_retries = 0` the `for` loop body never
runs and the function returns Python `None`. -/
def query_ensembl_api (env : Nat → Attempt) (maxRetries : Nat) : QueryRun :=
  query_go env maxRetries maxRetries

/-! ## `extract_annotations` (variant_annotator.py lines 145-210)

The function is modelled as `Json → List String → Option (List (String ×
Json))`; `none` models a Python exception escaping the function (iterating
a non-iterable `transcript_consequences` value, calling `.get` on a
non-dict, or `sorted`/`join` on non-string gene symbols). -/

/-- All elements of a list must be objects (anything else makes the Python
loops crash at `consequence.get`). -/
def asObjList : List Json → Option (List (List (String × Json)))
  | [] => some []
  | .obj f :: rest => (asObjList rest).map (f :: ·)
  | _ => none

/-- The value iterated by the `for consequence in
variant.get("transcript_consequences", [])` loops, as a list of dict
consequences: an absent key defaults to `[]`; an empty string or empty
dict iterates zero times; a list of dicts iterates them; every other
present value makes the loop (or the `.get` inside it) raise. -/
def getTcs (variant : List (String × Json)) :
    Option (List (List (String × Json))) :=
  match dictGet variant "transcript_consequences" with
  | none => some []
  | some (.arr elems) => asObjList elems
  | some (.str "") => some []
  | some (.obj []) => some []
  | some _ => none

/-- Keep only values that pass Python truthiness — the
`if gene_symbol:` filter in the gene-symbol loop. -/
def truthyValues (l : List (Option Json)) : List Json :=
  (l.filterMap id).filter pyTruthy

/-- If every collected value is a string, return the strings; otherwise
`sorted`/`",".join` would raise a TypeError. -/
def allStrings : List Json → Option (List String)
  | [] => some []
  | .str s :: rest => (allStrings rest).map (s :: ·)
  | _ => none

/-- The initial annotation dict: the four standard fields, then every
requested additional field, all set to `""`. -/
def initAnnotDict (additional_fields : List String) : List (String × Json) :=
  additional_fields.foldl (fun a f => dictSet a f (.str ""))
    [("start", .str ""), ("end", .str ""),
     ("most_severe_consequence", .str ""), ("gene_symbols", .str "")]

/-- First consequence dict containing the key, and its value — the
`for consequence in ...: if field in consequence: ...; break` scan. -/
def firstWithKey (tcs : List (List (String × Json))) (f : String) :
    Option Json :=
  match tcs with
  | [] => none
  | c :: rest =>
      match dictGet c f with
      | some v => some v
      | none => firstWithKey rest f

/-- One iteration of the additional-fields loop (lines 199-208): prefer a
same-named key on the variant, else scan the transcript consequences (only
entered when the raw `transcript_consequences` value is truthy), else leave
the annotation unchanged. -/
def extraStep (variant : List (String × Json))
    (tcs : List (List (String × Json)))
    (a : List (String × Json)) (f : String) : List (String × Json) :=
  if dictHasKey variant f then
    dictSet a f (.str (pyStr (pyGetD variant f (.str ""))))
  else if pyTruthy (pyGetD variant "transcript_consequences" .null) then
    match firstWithKey tcs f with
    | some v => dictSet a f (.str (pyStr v))
    | none => a
  else a

/-- `extract_annotations` from variant_annotator.py.  The Python set of
gene symbols is modelled by collecting the truthy values in order and
deduplicating; `sorted`/`join` require every member to be a string. -/
def extract_annotations (api_response : Json)
    (additional_fields : List String) : Option (List (String × Json)) :=
  let annot := initAnnotDict additional_fields
  match api_response with
  | .arr (first :: _restVariants) =>
      -- a non-empty list passes the validity check; variant = api_response[0]
      match first with
      | .obj variant =>
          let annot := dictSet annot "start"
            (.str (pyStr (pyGetD variant "start" (.str ""))))
          let annot := dictSet annot "end"
            (.str (pyStr (pyGetD variant "end" (.str ""))))
          let annot := dictSet annot "most_severe_consequence"
            (pyGetD variant "most_severe_consequence" (.str ""))
          match getTcs variant with
          | none => none
          | some tcs =>
              let fromTcs :=
                truthyValues (tcs.map (fun c => dictGet c "gene_symbol"))
              let gset :=
                if fromTcs.isEmpty
                    && pyTruthy (pyGetD variant "gene_symbol" .null) then
                  [pyGetD variant "gene_symbol" .null]
                else fromTcs
              match allStrings gset with
              | none => none
              | some strs =>
                  let joined := String.intercalate ","
                    (sortStrings strs.dedup)
                  let annot :=
                    dictSet annot "gene_symbols" (.str joined)
                  some (additional_fields.foldl (extraStep variant tcs)
                    annot)
      | _ => none  -- variant.get on a non-dict raises AttributeError
  | _ => some annot
  -- the guard `not api_response or not isinstance(api_response, list) or
  -- not api_response` returns the defaults exactly when the response is
  -- not a non-empty list

/-! ## `write_tsv` (variant_annotator.py lines 213-243)

Annotations are string-to-string mappings here (§3 of the spec: an
Annotation maps field names to string values; `csv` stringifies any other
value on output).  The `csv.DictWriter` with `delimiter='\t'` is modelled
faithfully: QUOTE_MINIMAL quoting (a field is quoted iff it contains the
delimiter, the quote character, CR or LF, with inner quotes doubled),
`\r\n` line terminator, `restval=''` for fields missing from a row, and
row construction `{"rsid": rsid, **annotation}` — so an annotation key
`"rsid"` overrides the identifier.  An unwritable output file exits the
process (fatal), which is outside every claim. -/

/-- String-valued dict lookup (first match). -/
def dictGetS (d : List (String × String)) (k : String) : Option String :=
  match d with
  | [] => none
  | (k1, v) :: rest => if k1 = k then some v else dictGetS rest k

/-- The fixed list `standard_fields` (line 229). -/
def standard_fields : List String :=
  ["rsid", "start", "end", "most_severe_consequence", "gene_symbols"]

/-- The header of the TSV: `standard_fields`, then the remaining field
names appearing in any annotation, deduplicated (`all_fields` is a set)
and sorted (lines 223-231). -/
def write_fieldnames (annotations : List (List (String × String))) :
    List String :=
  let all_fields := ("rsid" :: (annotations.map (·.map Prod.fst)).flatten).dedup
  let extras := sortStrings
    (all_fields.filter (fun f => f ∉ standard_fields))
  standard_fields ++ extras

/-- The cell written for field `f` of the row `{"rsid": rsid, **annotation}`
(`DictWriter` fills fields missing from the row with `restval`, i.e. `""`). -/
def rowCell (rsid : String) (annot : List (String × String))
    (f : String) : String :=
  match dictGetS annot f with
  | some v => v
  | none => if f = "rsid" then rsid else ""

/-- The grid of cells written by `write_tsv`: the header row, then one row
per `zip(rsids, annotations)` pair. -/
def write_rows (annotations : List (List (String × String)))
    (rsids : List String) : List (List String) :=
  write_fieldnames annotations ::
    (rsids.zip annotations).map
      (fun p => (write_fieldnames annotations).map (rowCell p.1 p.2))

/-- QUOTE_MINIMAL: a field needs quoting iff it contains the delimiter,
the quote character, or a line-terminator character. -/
def needsQuote (s : String) : Bool :=
  s.data.any (fun c => c = '\t' || c = '"' || c = '\r' || c = '\n')

/-- Double each quote character (the csv escape inside a quoted field). -/
def escQuotes (s : List Char) : List Char :=
  match s with
  | [] => []
  | c :: rest =>
      if c = '"' then '"' :: '"' :: escQuotes rest
      else c :: escQuotes rest

/-- Encode one csv field. -/
def encField (s : String) : String :=
  if needsQuote s then ⟨'"' :: escQuotes s.data ++ ['"']⟩ else s

/-- Encode one csv record: tab-separated encoded fields plus `\r\n`. -/
def encRecord (cells : List String) : String :=
  String.intercalate "\t" (cells.map encField) ++ "\r\n"

/-- `write_tsv` from variant_annotator.py: the full text written to the
output file (argument order as in the source: annotations, then rsids). -/
def write_tsv (annotations : List (List (String × String)))
    (rsids : List String) : String :=
  String.join ((write_rows annotations rsids).map encRecord)

/-! ### A csv (RFC-4180-style, tab-delimited) reader

`csvParse` models reading the produced file back with `csv.reader`
(delimiter `'\t'`): a quote at the start of a field opens a quoted section
in which doubled quotes denote a literal quote and tabs/newlines are
ordinary characters; records are terminated by `\r\n`. -/

inductive CsvMode where
  | fieldStart
  | unquoted
  | quoted
  | quoteInQuoted
  | sawCR
deriving DecidableEq

structure CsvState where
  mode : CsvMode
  field : List Char
  record : List String
  out : List (List String)

def csvInit : CsvState := ⟨.fieldStart, [], [], []⟩

/-- One character of csv parsing. -/
def csvStep (st : CsvState) (c : Char) : CsvState :=
  match st.mode with
  | .fieldStart =>
      if c = '"' then { st with mode := .quoted }
      else if c = '\t' then { st with record := st.record ++ [⟨st.field⟩], field := [] }
      else if c = '\r' then { st with mode := .sawCR, record := st.record ++ [⟨st.field⟩], field := [] }
      else { st with mode := .unquoted, field := st.field ++ [c] }
  | .unquoted =>
      if c = '\t' then { st with mode := .fieldStart, record := st.record ++ [⟨st.field⟩], field := [] }
      else if c = '\r' then { st with mode := .sawCR, record := st.record ++ [⟨st.field⟩], field := [] }
      else { st with field := st.field ++ [c] }
  | .quoted =>
      if c = '"' then { st with mode := .quoteInQuoted }
      else { st with field := st.field ++ [c] }
  | .quoteInQuoted =>
      if c = '"' then { st with mode := .quoted, field := st.field ++ ['"'] }
      else if c = '\t' then { st with mode := .fieldStart, record := st.record ++ [⟨st.field⟩], field := [] }
      else if c = '\r' then { st with mode := .sawCR, record := st.record ++ [⟨st.field⟩], field := [] }
      else { st with mode := .unquoted, field := st.field ++ [c] }
  | .sawCR =>
      if c = '\n' then { st with mode := .fieldStart, record := [], out := st.out ++ [st.record] }
      else if c = '\t' then { st with mode := .fieldStart, record := st.record ++ [⟨st.field⟩], field := [] }
      else { st with mode := .unquoted, field := st.field ++ [c] }

def csvRun (st : CsvState) (cs : List Char) : CsvState :=
  cs.foldl csvStep st

/-- Parse a csv text into its records; a final record not terminated by a
newline is still emitted. -/
def csvParse (s : String) : List (List String) :=
  let st := csvRun csvInit s.data
  if st.mode = .fieldStart ∧ st.record = [] then st.out
  else st.out ++ [st.record ++ [⟨st.field⟩]]

/-! ## Spec-side definitions

These definitions transcribe the words of the claims (not the source);
they are compared with the source-derived definitions above. -/

/-- The claim's acceptance predicate for identifiers: after trimming, the
literal prefix `rs` followed by one or more decimal digits and nothing
else. -/
def specValidRsid (s : String) : Bool :=
  strHasPre "rs" s && (s.drop 2) ≠ "" && (s.drop 2).data.all isDecimalDigit

/-- The code's acceptance predicate on a stripped line (line 68):
`rsid.startswith("rs") and rsid[2:].isdigit()`. -/
def codeValidRsid (s : String) : Bool :=
  strHasPre "rs" s && pyIsDigitStr (s.drop 2)

/-- The gene-symbols value as worded by claim C2: the set of distinct
`gene_symbol` values found across the transcript-consequence list, sorted
and comma-joined; if that set is empty, the variant's own `gene_symbol`
value when present; otherwise the empty string. -/
def specGeneSymbolsClaim (variant : List (String × Json))
    (tcs : List (List (String × Json))) : String :=
  let found := (tcs.filterMap (fun c =>
    match dictGet c "gene_symbol" with
    | some (.str s) => some s
    | _ => none)).dedup
  if found.isEmpty then
    match dictGet variant "gene_symbol" with
    | some (.str s) => s
    | _ => ""
  else String.intercalate "," (sortStrings found)

/-- The `gene_symbol` string a consequence record contributes under the
code's truthiness filter: a present, non-empty string value. -/
def geneStrTruthy : Option Json → Option String
  | some (.str s) => if s ≠ "" then some s else none
  | _ => none

/-- The amended gene-symbols value: as claim C2, but only non-empty
(truthy) `gene_symbol` strings count as found, and the fallback to the
variant's own `gene_symbol` also requires a non-empty string. -/
def specGeneSymbolsAmended (variant : List (String × Json))
    (tcs : List (List (String × Json))) : String :=
  let found := (tcs.filterMap
    (fun c => geneStrTruthy (dictGet c "gene_symbol"))).dedup
  if found.isEmpty then
    match dictGet variant "gene_symbol" with
    | some (.str s) => s
    | _ => ""
  else String.intercalate "," (sortStrings found)

/-- The extra-field value as worded by claim C9: the variant's same-named
key first; else the first transcript consequence containing the key; else
empty; values are stringified. -/
def specExtraField (variant : List (String × Json))
    (tcs : List (List (String × Json))) (f : String) : String :=
  match dictGet variant f with
  | some v => pyStr v
  | none =>
      match firstWithKey tcs f with
      | some v => pyStr v
      | none => ""

/-- Is the value a string? -/
def isStr : Json → Bool
  | .str _ => true
  | _ => false

/-- Every truthy `gene_symbol` value (in the consequences and on the
variant itself) is a string — §3's data model, under which the
`sorted`/`join` in the gene-symbol extraction cannot raise. -/
def geneValuesOk (variant : List (String × Json))
    (tcs : List (List (String × Json))) : Bool :=
  tcs.all (fun c =>
    match dictGet c "gene_symbol" with
    | some v => !pyTruthy v || isStr v
    | none => true)
  && (match dictGet variant "gene_symbol" with
      | some v => !pyTruthy v || isStr v
      | none => true)

/-- An attempt outcome whose `Retry-After` hint (when it is consulted,
i.e. on a 429 response) parses as a nonnegative decimal integer, as §6's
interface contract (`Retry-After` gives seconds to wait) implies. -/
def attemptRetryAfterOk : Attempt → Bool
  | .exn => true
  | .resp status retryAfter _ =>
      if status = 429 then
        match retryAfter with
        | none => true
        | some h =>
            match pyIntOfString h with
            | some n => decide (0 ≤ n)
            | none => false
      else true

/-- The string value that one pass of the additional-fields loop would
assign to field `f`, if any: the characterization of `extraStep` used in
the proofs. -/
def extraFound (variant : List (String × Json))
    (tcs : List (List (String × Json))) (f : String) : Option String :=
  if dictHasKey variant f then some (pyStr (pyGetD variant f (.str "")))
  else if pyTruthy (pyGetD variant "transcript_consequences" .null) then
    (firstWithKey tcs f).map pyStr
  else none

/-! ## Basic lemmas about the dict model -/

theorem dictGet_dictSet_self (d : List (String × Json)) (k : String) (v : Json) :
    dictGet (dictSet d k v) k = some v := by
  induction d with
  | nil => simp [dictSet, dictGet]
  | cons h t ih =>
      obtain ⟨k1, v1⟩ := h
      by_cases hk : k1 = k
      · simp [dictSet, dictGet, hk]
      · simp [dictSet, dictGet, hk, ih]

theorem dictGet_dictSet_ne (d : List (String × Json)) (k g : String) (v : Json)
    (h : g ≠ k) : dictGet (dictSet d k v) g = dictGet d g := by
  induction d with
  | nil => simp [dictSet, dictGet, Ne.symm h]
  | cons hd t ih =>
      obtain ⟨k1, v1⟩ := hd
      by_cases hk : k1 = k
      · subst hk
        simp [dictSet, dictGet, Ne.symm h]
      · simp only [dictSet, if_neg hk]
        by_cases hg : k1 = g
        · simp [dictGet, hg]
        · simp [dictGet, hg, ih]

theorem dictGet_foldl_setConst (l : List String) (a : List (String × Json))
    (v : Json) (g : String) :
    dictGet (l.foldl (fun a f => dictSet a f v) a) g =
      if g ∈ l then some v else dictGet a g := by
  induction l generalizing a with
  | nil => simp
  | cons f fs ih =>
      simp only [List.foldl_cons, ih, List.mem_cons]
      by_cases hg : g ∈ fs
      · simp [hg]
      · by_cases hf : g = f
        · subst hf
          simp [hg, dictGet_dictSet_self]
        · simp [hg, hf, dictGet_dictSet_ne a f g v hf]

theorem dictGet_initAnnotDict (fields : List String) (g : String) :
    dictGet (initAnnotDict fields) g =
      if g ∈ fields ∨ g ∈ ["start", "end", "most_severe_consequence",
        "gene_symbols"] then some (.str "") else none := by
  unfold initAnnotDict
  rw [dictGet_foldl_setConst]
  by_cases hg : g ∈ fields
  · simp [hg]
  · simp only [hg, if_false, false_or]
    by_cases h1 : g = "start"
    · subst h1; simp [dictGet]
    by_cases h2 : g = "end"
    · subst h2; simp [dictGet]
    by_cases h3 : g = "most_severe_consequence"
    · subst h3; simp [dictGet]
    by_cases h4 : g = "gene_symbols"
    · subst h4; simp [dictGet]
    simp [dictGet, h1, h2, h3, h4, Ne.symm h1, Ne.symm h2, Ne.symm h3, Ne.symm h4]

/-! ## Claim C3: `read_rsids` -/

theorem read_rsids_go_eq (lines : List String) (acc : List String) :
    read_rsids_go lines acc =
      acc ++ (lines.map pyStrip).filter codeValidRsid := by
  induction lines generalizing acc with
  | nil => simp [read_rsids_go]
  | cons line rest ih =>
      simp only [read_rsids_go, List.map_cons, List.filter_cons]
      by_cases hblank : pyStrip line = ""
      · have hfalse : codeValidRsid "" = false := by decide
        simp [hblank, hfalse, ih]
      · simp only [if_neg hblank]
        by_cases hvalid : codeValidRsid (pyStrip line) = true
        · have hpre : strHasPre "rs" (pyStrip line) = true := by
            have := hvalid
            unfold codeValidRsid at this
            exact (Bool.and_eq_true _ _).mp this |>.1
          have hdig : pyIsDigitStr ((pyStrip line).drop 2) = true := by
            have := hvalid
            unfold codeValidRsid at this
            exact (Bool.and_eq_true _ _).mp this |>.2
          simp [hpre, hdig, hvalid, ih, List.append_assoc]
        · have hvalid' : codeValidRsid (pyStrip line) = false :=
            Bool.eq_false_iff.mpr hvalid
          have hsplit : strHasPre "rs" (pyStrip line) = false ∨
              pyIsDigitStr ((pyStrip line).drop 2) = false := by
            unfold codeValidRsid at hvalid'
            rcases Bool.and_eq_false_iff.mp hvalid' with h | h
            · exact Or.inl h
            · exact Or.inr h
          rcases hsplit with h | h
          · simp [h, hvalid', ih]
          · by_cases hpre : strHasPre "rs" (pyStrip line) = true
            · simp [hpre, h, hvalid', ih]
            · simp [Bool.eq_false_iff.mpr hpre, hvalid', ih]

/-- Claim C3 as stated is false: the code accepts any identifier whose
suffix satisfies Python's `str.isdigit`, which is a strict superset of the
decimal digits; `"rs²"` (superscript two, for which `"²".isdigit()` is
`True` in Python) is returned by `read_rsids` although it is not `rs`
followed by decimal digits. -/
theorem claim3_read_rsids_counterexample :
    read_rsids ["rs²"] = ["rs²"] ∧
      (List.map pyStrip ["rs²"]).filter specValidRsid = [] := by
  constructor
  · decide
  · decide

/-- Claim C3, amended: `read_rsids` returns exactly those lines that, after
trimming surrounding whitespace, consist of the literal prefix `rs`
followed by one or more characters satisfying Python's `str.isdigit` (a
superset of the decimal digits that also contains, e.g., superscript
digits) and nothing else; blank lines are skipped, non-conforming non-blank
lines are excluded, and accepted identifiers are returned in file order
with duplicates preserved. -/
theorem claim3_read_rsids_amended (lines : List String) :
    read_rsids lines = (lines.map pyStrip).filter codeValidRsid := by
  unfold read_rsids
  simpa using read_rsids_go_eq lines []

/-! ## Step lemmas for the retry loop -/

theorem query_go_exn_step (env : Nat → Attempt) (mr rem : Nat)
    (h : env (mr - (rem + 1)) = .exn) (hrem : 0 < rem) :
    query_go env mr (rem + 1) = bump (query_go env mr rem) := by
  conv_lhs => unfold query_go
  simp only [h]
  simp [hrem]

theorem query_go_exn_last (env : Nat → Attempt) (mr : Nat)
    (h : env (mr - 1) = .exn) :
    query_go env mr 1 = ⟨.ret emptyDict .exceptionExhausted, 1⟩ := by
  conv_lhs => unfold query_go
  simp only [h]
  simp

theorem query_go_resp_parsed (env : Nat → Attempt) (mr rem st : Nat)
    (ra : Option String) (j : Json)
    (h : env (mr - (rem + 1)) = .resp st ra (some j))
    (h429 : st ≠ 429) (hlt : st < 400) :
    query_go env mr (rem + 1) = ⟨.ret j .parsed, 1⟩ := by
  conv_lhs => unfold query_go
  simp only [h]
  have c1 : ¬(st = 429 ∧ 0 < rem) := fun hc => h429 hc.1
  have c2 : st ≠ 400 := by omega
  have c3 : st ≠ 404 := by omega
  have c4 : ¬500 ≤ st := by omega
  have c5 : ¬400 ≤ st := by omega
  simp [c1, c2, c3, c4, c5]

theorem query_go_resp_400 (env : Nat → Attempt) (mr rem : Nat)
    (ra : Option String) (body : Option Json)
    (h : env (mr - (rem + 1)) = .resp 400 ra body) :
    query_go env mr (rem + 1) = ⟨.ret emptyDict .badRequest, 1⟩ := by
  conv_lhs => unfold query_go
  simp only [h]
  simp

theorem query_go_resp_404 (env : Nat → Attempt) (mr rem : Nat)
    (ra : Option String) (body : Option Json)
    (h : env (mr - (rem + 1)) = .resp 404 ra body) :
    query_go env mr (rem + 1) = ⟨.ret emptyDict .notFound, 1⟩ := by
  conv_lhs => unfold query_go
  simp only [h]
  simp

theorem query_go_resp_429_last (env : Nat → Attempt) (mr : Nat)
    (ra : Option String) (body : Option Json)
    (h : env (mr - 1) = .resp 429 ra body) :
    query_go env mr 1 = ⟨.ret emptyDict .exceptionExhausted, 1⟩ := by
  conv_lhs => unfold query_go
  simp only [h]
  norm_num

/-! ## Claim C1: retry policy -/

/-- Claim C1: with `max_retries = 3`, transport failures on attempts 1 and
2 followed on attempt 3 by a 2xx response whose body is a JSON list yield
that parsed list (three requests made), not the empty fallback; and three
straight transport failures yield the empty fallback `{}`. -/
theorem claim1_retry_policy (env1 env2 : Nat → Attempt) (st : Nat)
    (ra : Option String) (l : List Json)
    (h0 : env1 0 = .exn) (h1 : env1 1 = .exn)
    (h2 : env1 2 = .resp st ra (some (.arr l)))
    (hlo : 200 ≤ st) (hhi : st < 300)
    (hexn : ∀ i, i < 3 → env2 i = .exn) :
    query_ensembl_api env1 3 = ⟨.ret (.arr l) .parsed, 3⟩ ∧
      Json.arr l ≠ emptyDict ∧
      query_ensembl_api env2 3 = ⟨.ret emptyDict .exceptionExhausted, 3⟩ := by
  refine ⟨?_, by simp [emptyDict], ?_⟩
  · show query_go env1 3 3 = _
    rw [show (3 : Nat) = 2 + 1 from rfl,
      query_go_exn_step env1 3 2 (by simpa using h0) (by omega),
      show (2 : Nat) = 1 + 1 from rfl,
      query_go_exn_step env1 3 1 (by simpa using h1) (by omega),
      query_go_resp_parsed env1 3 0 st ra (.arr l) (by simpa using h2)
        (by omega) (by omega)]
    rfl
  · show query_go env2 3 3 = _
    rw [show (3 : Nat) = 2 + 1 from rfl,
      query_go_exn_step env2 3 2 (by simpa using hexn 0 (by omega)) (by omega),
      show (2 : Nat) = 1 + 1 from rfl,
      query_go_exn_step env2 3 1 (by simpa using hexn 1 (by omega)) (by omega),
      query_go_exn_last env2 3 (by simpa using hexn 2 (by omega))]
    rfl

/-- Witness for C1 at a concrete network trace. -/
theorem claim1_retry_policy_witness :
    query_ensembl_api
        (fun i => if i < 2 then .exn
          else .resp 200 none (some (.arr [.obj [("start", .num 7)]]))) 3 =
      ⟨.ret (.arr [.obj [("start", .num 7)]]) .parsed, 3⟩ ∧
      query_ensembl_api (fun _ => .exn) 3 =
        ⟨.ret emptyDict .exceptionExhausted, 3⟩ := by
  have h := claim1_retry_policy
    (fun i => if i < 2 then .exn
      else .resp 200 none (some (.arr [.obj [("start", .num 7)]])))
    (fun _ => .exn) 200 none [.obj [("start", .num 7)]]
    (by simp) (by simp) (by simp) (by omega) (by omega)
    (fun i _ => rfl)
  exact ⟨h.1, h.2.2⟩

/-! ## Claim C6: 400/404 return immediately -/

/-- Claim C6: if the first response has status 400 or 404, the function
returns the empty result `{}` from that branch at once — exactly one
request is made, whatever `max_retries ≥ 1` is. -/
theorem claim6_client_error_no_retry (env : Nat → Attempt) (st mr : Nat)
    (ra : Option String) (body : Option Json)
    (h0 : env 0 = .resp st ra body) (hst : st = 400 ∨ st = 404)
    (hmr : 1 ≤ mr) :
    query_ensembl_api env mr =
      ⟨.ret emptyDict (if st = 400 then .badRequest else .notFound), 1⟩ := by
  obtain ⟨k, rfl⟩ : ∃ k, mr = k + 1 := ⟨mr - 1, by omega⟩
  show query_go env (k + 1) (k + 1) = _
  rcases hst with h | h
  · subst h
    rw [query_go_resp_400 env (k + 1) k ra body (by simpa using h0)]
    simp
  · subst h
    rw [query_go_resp_404 env (k + 1) k ra body (by simpa using h0)]
    simp

/-- Witness for C6: a 404 on the first attempt with `max_retries = 3`. -/
theorem claim6_client_error_no_retry_witness :
    query_ensembl_api (fun _ => .resp 404 none none) 3 =
      ⟨.ret emptyDict .notFound, 1⟩ := by
  have h := claim6_client_error_no_retry (fun _ => .resp 404 none none)
    404 3 none none rfl (Or.inr rfl) (by omega)
  simpa using h

/-! ## Claim C7: rate-limit exhaustion -/

theorem query_go_429_final (env : Nat → Attempt) (mr : Nat) (ra : Option String)
    (body : Option Json) (h429 : env (mr - 1) = .resp 429 ra body) :
    ∀ rem, 1 ≤ rem → rem ≤ mr →
      (∀ i, mr - rem ≤ i → i + 1 < mr → env i = .exn) →
      query_go env mr rem = ⟨.ret emptyDict .exceptionExhausted, rem⟩ := by
  intro rem
  induction rem with
  | zero => intro h1; omega
  | succ r ih =>
      intro h1 h2 hexn
      rcases Nat.eq_zero_or_pos r with hr0 | hrpos
      · subst hr0
        exact query_go_resp_429_last env mr ra body h429
      · rw [query_go_exn_step env mr r (hexn _ (by omega) (by omega)) hrpos,
          ih (by omega) (by omega) (fun i hi1 hi2 => hexn i (by omega) hi2)]
        rfl

/-- Claim C7, amended: a 429 received on the final attempt is not returned
from the rate-limit branch (that branch has no return statement, which the
absence of a dedicated exit kind for it mirrors) and control falls through
to the generic response handling; there `raise_for_status()` raises an
`HTTPError` for the 429 status before the body could be parsed, the
`except` handler catches it, and — the attempt being the last — the empty
result `{}` is returned through the exception-exhausted exit.  The 429 body
is never parsed, whatever it contains. -/
theorem claim7_rate_limit_exhaustion_amended (env : Nat → Attempt) (mr : Nat)
    (ra : Option String) (body : Option Json) (hmr : 1 ≤ mr)
    (hexn : ∀ i, i + 1 < mr → env i = .exn)
    (h429 : env (mr - 1) = .resp 429 ra body) :
    query_ensembl_api env mr = ⟨.ret emptyDict .exceptionExhausted, mr⟩ := by
  exact query_go_429_final env mr ra body h429 mr hmr (le_refl mr)
    (fun i _ hi2 => hexn i hi2)

/-- Claim C7 as stated is false in its parsing half: on a final-attempt 429
whose body is a perfectly parseable JSON list, the function returns the
empty fallback `{}` through the exception path — it does not parse the 429
body into a successful result. -/
theorem claim7_rate_limit_exhaustion_counterexample :
    query_ensembl_api
        (fun _ => .resp 429 none (some (.arr [.obj [("start", .num 1)]]))) 1 =
      ⟨.ret emptyDict .exceptionExhausted, 1⟩ ∧
      emptyDict ≠ Json.arr [.obj [("start", .num 1)]] := by
  refine ⟨rfl, ?_⟩
  simp [emptyDict]

/-- Witness for the amended C7 at a concrete trace: one transport failure,
then a 429 with a well-formed 7-second hint on the final of 2 attempts. -/
theorem claim7_rate_limit_exhaustion_witness :
    query_ensembl_api
        (fun i => if i = 1 then .resp 429 (some "7") (some (.arr [])) else .exn)
        2 =
      ⟨.ret emptyDict .exceptionExhausted, 2⟩ := by
  exact claim7_rate_limit_exhaustion_amended
    (fun i => if i = 1 then .resp 429 (some "7") (some (.arr [])) else .exn)
    2 (some "7") (some (.arr [])) (by omega)
    (fun i hi => by
      have hz : i = 0 := by omega
      subst hz
      rfl)
    rfl

/-! ## Claim C5: the client never raises -/

/-- Every result of the retry loop is a returned value — Python `None`
when the loop never ran, the empty fallback `{}`, or the parsed body of
some response — provided every 429 `Retry-After` hint in the environment
parses as a nonnegative integer. -/
theorem query_go_classify (env : Nat → Attempt) (mr : Nat)
    (hok : ∀ i, attemptRetryAfterOk (env i) = true) :
    ∀ rem, ∃ v k, (query_go env mr rem).result = .ret v k ∧
      (v = .null ∨ v = emptyDict ∨
        ∃ i st ra, env i = .resp st ra (some v)) := by
  intro rem
  induction rem with
  | zero => exact ⟨.null, .loopEnded, rfl, Or.inl rfl⟩
  | succ r ih =>
      obtain ⟨v, k, hres, hcl⟩ := ih
      unfold query_go
      cases henv : env (mr - (r + 1)) with
      | exn =>
          simp only [henv]
          by_cases hr : 0 < r
          · rw [if_pos hr]
            exact ⟨v, k, by simpa [bump] using hres, hcl⟩
          · rw [if_neg hr]
            exact ⟨emptyDict, .exceptionExhausted, rfl, Or.inr (Or.inl rfl)⟩
      | resp st ra body =>
          simp only [henv]
          by_cases h429 : st = 429 ∧ 0 < r
          · obtain ⟨hst, hrp⟩ := h429
            subst hst
            rw [if_pos (show (429 : Nat) = 429 ∧ r > 0 from ⟨rfl, hrp⟩)]
            cases ra with
            | none => exact ⟨v, k, by simpa [bump] using hres, hcl⟩
            | some hdr =>
                have hoka := hok (mr - (r + 1))
                rw [henv] at hoka
                cases hint : pyIntOfString hdr with
                | none => simp [attemptRetryAfterOk, hint] at hoka
                | some n =>
                    simp [attemptRetryAfterOk, hint] at hoka
                    have hn : ¬n < 0 := by omega
                    simp only [hint, if_neg hn]
                    exact ⟨v, k, by simpa [bump] using hres, hcl⟩
          · rw [if_neg h429]
            by_cases h400 : st = 400
            · rw [if_pos h400]
              exact ⟨emptyDict, .badRequest, rfl, Or.inr (Or.inl rfl)⟩
            rw [if_neg h400]
            by_cases h404 : st = 404
            · rw [if_pos h404]
              exact ⟨emptyDict, .notFound, rfl, Or.inr (Or.inl rfl)⟩
            rw [if_neg h404]
            by_cases h500 : 500 ≤ st
            · rw [if_pos h500]
              by_cases hr : 0 < r
              · rw [if_pos hr]
                exact ⟨v, k, by simpa [bump] using hres, hcl⟩
              · rw [if_neg hr]
                exact ⟨emptyDict, .serverErrorExhausted, rfl, Or.inr (Or.inl rfl)⟩
            rw [if_neg h500]
            by_cases h4xx : 400 ≤ st
            · rw [if_pos h4xx]
              by_cases hr : 0 < r
              · rw [if_pos hr]
                exact ⟨v, k, by simpa [bump] using hres, hcl⟩
              · rw [if_neg hr]
                exact ⟨emptyDict, .exceptionExhausted, rfl, Or.inr (Or.inl rfl)⟩
            rw [if_neg h4xx]
            cases body with
            | some j =>
                exact ⟨j, .parsed, rfl,
                  Or.inr (Or.inr ⟨mr - (r + 1), st, ra, henv⟩)⟩
            | none =>
                by_cases hr : 0 < r
                · rw [if_pos hr]
                  exact ⟨v, k, by simpa [bump] using hres, hcl⟩
                · rw [if_neg hr]
                  exact ⟨emptyDict, .exceptionExhausted, rfl, Or.inr (Or.inl rfl)⟩

/-- Claim C5, amended: for every identifier, species and `max_retries`,
and every sequence of responses or transport failures in which every
rate-limit `Retry-After` hint that is present parses as a nonnegative
decimal integer (as §6's contract — the header gives seconds to wait —
implies), `query_ensembl_api` never raises: it terminates with either a
parsed response body, the empty fallback `{}`, or Python `None` (when
`max_retries ≤ 0`, so the loop body never runs). -/
theorem claim5_never_raises_amended (env : Nat → Attempt) (mr : Nat)
    (hok : ∀ i, attemptRetryAfterOk (env i) = true) :
    (query_ensembl_api env mr).result ≠ QValue.crash ∧
      ∃ v k, (query_ensembl_api env mr).result = .ret v k ∧
        (v = .null ∨ v = emptyDict ∨
          ∃ i st ra, env i = .resp st ra (some v)) := by
  obtain ⟨v, k, hres, hcl⟩ := query_go_classify env mr hok mr
  refine ⟨?_, v, k, hres, hcl⟩
  intro hcrash
  rw [show (query_ensembl_api env mr).result = (query_go env mr mr).result
    from rfl, hres] at hcrash
  cases hcrash

/-- Claim C5 as stated (over arbitrary response sequences) is false: a 429
that will be retried but whose `Retry-After` header is not a decimal
integer — e.g. the HTTP-date form `"later"` — makes
`int(response.headers.get('Retry-After', ...))` raise an uncaught
`ValueError` that escapes to the caller. -/
theorem claim5_never_raises_counterexample :
    (query_ensembl_api
        (fun _ => .resp 429 (some "later") (some (.arr []))) 2).result =
      QValue.crash := rfl

/-- Witness for the amended C5 at a concrete trace of transport failures. -/
theorem claim5_never_raises_witness :
    (query_ensembl_api (fun _ => Attempt.exn) 1).result ≠ QValue.crash := by
  exact (claim5_never_raises_amended (fun _ => Attempt.exn) 1
    (fun _ => rfl)).1

/-! ## Claim C8: defaults on empty/absent/non-list input -/

/-- Claim C8: on a raw result that is empty, absent or not a list —
anything that is not a non-empty list — `extract_annotations` returns the
all-defaults annotation: the four standard fields and every requested
extra field map to the empty string. -/
theorem claim8_defaults (api : Json) (fields : List String)
    (h : ∀ v vs, api ≠ .arr (v :: vs)) :
    ∃ A, extract_annotations api fields = some A ∧
      dictGet A "start" = some (.str "") ∧
      dictGet A "end" = some (.str "") ∧
      dictGet A "most_severe_consequence" = some (.str "") ∧
      dictGet A "gene_symbols" = some (.str "") ∧
      ∀ f ∈ fields, dictGet A f = some (.str "") := by
  refine ⟨initAnnotDict fields, ?_, ?_, ?_, ?_, ?_, ?_⟩
  · cases api with
    | arr l =>
        cases l with
        | nil => rfl
        | cons a as => exact absurd rfl (h a as)
    | null => rfl
    | bool b => rfl
    | num n => rfl
    | str s => rfl
    | obj f => rfl
  · rw [dictGet_initAnnotDict]; simp
  · rw [dictGet_initAnnotDict]; simp
  · rw [dictGet_initAnnotDict]; simp
  · rw [dictGet_initAnnotDict]; simp
  · intro f hf
    rw [dictGet_initAnnotDict]
    simp [hf]

/-- Witness for C8: the absent result (`None`) with one extra field. -/
theorem claim8_defaults_witness :
    ∃ A, extract_annotations .null ["clin_sig"] = some A ∧
      dictGet A "start" = some (.str "") ∧
      dictGet A "end" = some (.str "") ∧
      dictGet A "most_severe_consequence" = some (.str "") ∧
      dictGet A "gene_symbols" = some (.str "") ∧
      ∀ f ∈ ["clin_sig"], dictGet A f = some (.str "") :=
  claim8_defaults .null ["clin_sig"] (fun _ _ hh => Json.noConfusion hh)

/-! ## Sortedness infrastructure for claims C10 and C2 -/

theorem lexLeb_total (as : List Char) :
    ∀ bs, lexLeb as bs = true ∨ lexLeb bs as = true := by
  induction as with
  | nil => intro bs; exact Or.inl rfl
  | cons a as ih =>
      intro bs
      cases bs with
      | nil => exact Or.inr rfl
      | cons b bs =>
          rcases lt_trichotomy a b with h | h | h
          · left; simp [lexLeb, h]
          · subst h
            rcases ih bs with h2 | h2
            · left; simp [lexLeb, lt_irrefl, h2]
            · right; simp [lexLeb, lt_irrefl, h2]
          · right; simp [lexLeb, h]

theorem lexLeb_trans (as : List Char) :
    ∀ bs cs, lexLeb as bs = true → lexLeb bs cs = true →
      lexLeb as cs = true := by
  induction as with
  | nil => intro bs cs h1 h2; rfl
  | cons a as ih =>
      intro bs cs h1 h2
      cases bs with
      | nil => simp [lexLeb] at h1
      | cons b bs =>
          cases cs with
          | nil => simp [lexLeb] at h2
          | cons c cs =>
              simp only [lexLeb] at h1 h2 ⊢
              by_cases hab : a < b
              · by_cases hbc : b < c
                · rw [if_pos (lt_trans hab hbc)]
                · rw [if_neg hbc] at h2
                  by_cases hbc2 : b = c
                  · subst hbc2; rw [if_pos hab]
                  · rw [if_neg hbc2] at h2; cases h2
              · rw [if_neg hab] at h1
                by_cases hab2 : a = b
                · subst hab2
                  rw [if_pos rfl] at h1
                  by_cases hbc : a < c
                  · rw [if_pos hbc]
                  · rw [if_neg hbc] at h2 ⊢
                    by_cases hbc2 : a = c
                    · rw [if_pos hbc2] at h2 ⊢
                      exact ih bs cs h1 h2
                    · rw [if_neg hbc2] at h2; cases h2
                · rw [if_neg hab2] at h1; cases h1

instance : IsTotal String (fun a b => strLeb a b = true) :=
  ⟨fun a b => lexLeb_total a.data b.data⟩

instance : IsTrans String (fun a b => strLeb a b = true) :=
  ⟨fun a b c => lexLeb_trans a.data b.data c.data⟩

theorem sortStrings_sorted (l : List String) :
    List.Sorted (fun a b => strLeb a b = true) (sortStrings l) :=
  List.sorted_insertionSort _ l

theorem sortStrings_perm (l : List String) : List.Perm (sortStrings l) l :=
  List.perm_insertionSort _ l

/-! ## Claim C10: header column order -/

/-- Claim C10: the header written by `write_tsv` is `rsid`, then the four
standard fields in their fixed order, then every additional field name
present in any annotation, sorted in code-point lexicographic order (the
order of Python's `sorted`), with no duplicate columns. -/
theorem claim10_header (annotations : List (List (String × String))) :
    (write_fieldnames annotations).take 5 =
      ["rsid", "start", "end", "most_severe_consequence", "gene_symbols"] ∧
      List.Sorted (fun a b => strLeb a b = true)
        ((write_fieldnames annotations).drop 5) ∧
      (write_fieldnames annotations).Nodup ∧
      ∀ f, f ∈ (write_fieldnames annotations).drop 5 ↔
        (f ∉ standard_fields ∧ ∃ a ∈ annotations, ∃ v, (f, v) ∈ a) := by
  have hlen : standard_fields.length = 5 := rfl
  have htake : (write_fieldnames annotations).take 5 = standard_fields := by
    unfold write_fieldnames
    rw [show (5 : Nat) = standard_fields.length from rfl]
    exact List.take_left _ _
  have hdrop : (write_fieldnames annotations).drop 5 =
      sortStrings ((("rsid" :: (annotations.map (·.map Prod.fst)).flatten).dedup).filter
        (fun f => f ∉ standard_fields)) := by
    unfold write_fieldnames
    rw [show (5 : Nat) = standard_fields.length from rfl]
    exact List.drop_left _ _
  have hmem : ∀ f, f ∈ (write_fieldnames annotations).drop 5 ↔
      (f ∉ standard_fields ∧ ∃ a ∈ annotations, ∃ v, (f, v) ∈ a) := by
    intro f
    rw [hdrop, (sortStrings_perm _).mem_iff, List.mem_filter, List.mem_dedup]
    simp only [List.mem_cons, List.mem_flatten, List.mem_map, decide_eq_true_eq]
    constructor
    · rintro ⟨hf, hnot⟩
      refine ⟨hnot, ?_⟩
      rcases hf with rfl | ⟨_, ⟨a, ha, rfl⟩, hfa⟩
      · exact absurd (by decide) hnot
      · rcases List.mem_map.mp hfa with ⟨p, hmem1, hfst⟩
        refine ⟨a, ha, p.2, ?_⟩
        have hp : p = (f, p.2) := by
          obtain ⟨p1, p2⟩ := p
          simp only at hfst
          simp [hfst]
        rwa [hp] at hmem1
    · rintro ⟨hnot, a, ha, v, hav⟩
      exact ⟨Or.inr ⟨a.map Prod.fst, ⟨a, ha, rfl⟩,
        List.mem_map.mpr ⟨(f, v), hav, rfl⟩⟩, hnot⟩
  refine ⟨htake, ?_, ?_, hmem⟩
  · rw [hdrop]; exact sortStrings_sorted _
  · unfold write_fieldnames
    apply List.Nodup.append
    · decide
    · rw [List.Perm.nodup_iff (sortStrings_perm _)]
      exact (List.nodup_dedup _).filter _
    · intro x hx hx2
      have hx3 := (sortStrings_perm _).mem_iff.mp hx2
      have hx4 := (List.mem_filter.mp hx3).2
      simp only [decide_eq_true_eq] at hx4
      exact hx4 hx

/-! ## Characterizing `extract_annotations` on shaped input -/

theorem asObjList_length (l : List Json) :
    ∀ t, asObjList l = some t → t.length = l.length := by
  induction l with
  | nil =>
      intro t h
      simp only [asObjList, Option.some.injEq] at h
      simp [← h]
  | cons a as ih =>
      intro t h
      cases a with
      | obj f =>
          simp only [asObjList] at h
          cases hrec : asObjList as with
          | none => rw [hrec] at h; simp at h
          | some t2 =>
              rw [hrec] at h
              simp only [Option.map, Option.some.injEq] at h
              subst h
              simp [ih t2 hrec]
      | null => simp [asObjList] at h
      | bool b => simp [asObjList] at h
      | num n => simp [asObjList] at h
      | str s2 => simp [asObjList] at h
      | arr l2 => simp [asObjList] at h

/-- For shaped input, the raw `transcript_consequences` value is truthy
exactly when the consequence list is non-empty. -/
theorem getTcs_truthy (variant : List (String × Json))
    (tcs : List (List (String × Json))) (h : getTcs variant = some tcs) :
    pyTruthy (pyGetD variant "transcript_consequences" .null) = true ↔
      tcs ≠ [] := by
  unfold getTcs at h
  unfold pyGetD
  cases hget : dictGet variant "transcript_consequences" with
  | none =>
      rw [hget] at h
      simp only [Option.some.injEq] at h
      subst h
      simp [pyTruthy]
  | some v =>
      rw [hget] at h
      cases v with
      | arr elems =>
          have hlen := asObjList_length elems tcs h
          simp only [Option.getD]
          constructor
          · intro htr hnil
            subst hnil
            simp only [List.length_nil] at hlen
            have helems : elems = [] := List.length_eq_zero.mp hlen.symm
            subst helems
            simp [pyTruthy] at htr
          · intro hne
            have helems : elems ≠ [] := by
              intro hh
              subst hh
              simp only [asObjList, Option.some.injEq] at h
              exact hne h.symm
            simp [pyTruthy, List.isEmpty_iff, helems]
      | str s2 =>
          by_cases hs : s2 = ""
          · subst hs
            simp only [Option.some.injEq] at h
            subst h
            simp [pyTruthy]
          · exact absurd h (by simp [hs])
      | obj f =>
          cases f with
          | nil =>
              simp only [Option.some.injEq] at h
              subst h
              simp [pyTruthy]
          | cons p ps => exact absurd h (by simp)
      | null => exact absurd h (by simp)
      | bool b => exact absurd h (by simp)
      | num n => exact absurd h (by simp)

theorem allStrings_map_str (L : List String) :
    allStrings (L.map Json.str) = some L := by
  induction L with
  | nil => rfl
  | cons a as ih => simp [allStrings, ih]

/-- Under the data-model typing of gene symbols, the truthy values
collected by the code are exactly the non-empty gene-symbol strings. -/
theorem truthyValues_gene (tcs : List (List (String × Json)))
    (hwt : tcs.all (fun c =>
      match dictGet c "gene_symbol" with
      | some v => !pyTruthy v || isStr v
      | none => true) = true) :
    truthyValues (tcs.map (fun c => dictGet c "gene_symbol")) =
      (tcs.filterMap (fun c => geneStrTruthy (dictGet c "gene_symbol"))).map
        Json.str := by
  unfold truthyValues
  rw [List.filterMap_map, List.filter_filterMap, List.map_filterMap]
  apply List.filterMap_congr
  intro c hcmem
  have hc : (match dictGet c "gene_symbol" with
      | some v => !pyTruthy v || isStr v
      | none => true) = true := by
    simpa using List.all_eq_true.mp hwt c hcmem
  cases hv : dictGet c "gene_symbol" with
  | none => simp [hv, geneStrTruthy, Option.filter]
  | some v =>
      rw [hv] at hc
      cases v with
      | str sv =>
          by_cases hsv : sv = ""
          · subst hsv
            simp [hv, geneStrTruthy, Option.filter, pyTruthy]
          · simp [hv, geneStrTruthy, Option.filter, pyTruthy, hsv]
      | null => simp [hv, geneStrTruthy, Option.filter, pyTruthy]
      | bool b =>
          have hb : b = false := by simpa [pyTruthy, isStr] using hc
          subst hb
          simp [hv, geneStrTruthy, Option.filter, pyTruthy]
      | num n =>
          have hn : n = 0 := by simpa [pyTruthy, isStr] using hc
          subst hn
          simp [hv, geneStrTruthy, Option.filter, pyTruthy]
      | arr l2 =>
          have hl : l2 = [] := by
            simpa [pyTruthy, isStr, List.isEmpty_iff] using hc
          subst hl
          simp [hv, geneStrTruthy, Option.filter, pyTruthy]
      | obj f2 =>
          have hf : f2 = [] := by
            simpa [pyTruthy, isStr, List.isEmpty_iff] using hc
          subst hf
          simp [hv, geneStrTruthy, Option.filter, pyTruthy]

theorem intercalate_nil (sep : String) : String.intercalate sep [] = "" := rfl

theorem intercalate_single (sep a : String) :
    String.intercalate sep [a] = a := by
  show String.intercalate.go a sep [] = a
  rfl

/-- The `sorted`/`join` step of the gene-symbol extraction succeeds under
the data-model typing and produces `specGeneSymbolsAmended`. -/
theorem gene_joined_eq (variant : List (String × Json))
    (tcs : List (List (String × Json))) (hok : geneValuesOk variant tcs = true) :
    ∃ strs,
      allStrings
          (if (truthyValues (tcs.map (fun c => dictGet c "gene_symbol"))).isEmpty
              && pyTruthy (pyGetD variant "gene_symbol" .null) then
            [pyGetD variant "gene_symbol" .null]
          else truthyValues (tcs.map (fun c => dictGet c "gene_symbol"))) =
        some strs ∧
      String.intercalate "," (sortStrings strs.dedup) =
        specGeneSymbolsAmended variant tcs := by
  unfold geneValuesOk at hok
  obtain ⟨h1, h2⟩ := (Bool.and_eq_true _ _).mp hok
  have htv := truthyValues_gene tcs h1
  rw [htv]
  by_cases hLnil :
      tcs.filterMap (fun c => geneStrTruthy (dictGet c "gene_symbol")) = []
  · rw [hLnil]
    simp only [List.map_nil, List.isEmpty_nil, Bool.true_and]
    cases hvg : dictGet variant "gene_symbol" with
    | none =>
        refine ⟨[], by simp [pyGetD, hvg, pyTruthy, allStrings], ?_⟩
        simp [specGeneSymbolsAmended, hLnil, hvg, sortStrings,
          List.insertionSort, intercalate_nil]
    | some v =>
        rw [hvg] at h2
        cases v with
        | str sv =>
            by_cases hsv : sv = ""
            · subst hsv
              refine ⟨[], by simp [pyGetD, hvg, pyTruthy, allStrings], ?_⟩
              simp [specGeneSymbolsAmended, hLnil, hvg, sortStrings,
                List.insertionSort, intercalate_nil]
            · refine ⟨[sv], ?_, ?_⟩
              · simp [pyGetD, hvg, pyTruthy, hsv, allStrings]
              · simp [specGeneSymbolsAmended, hLnil, hvg, sortStrings,
                  List.insertionSort, List.dedup, intercalate_single]
        | null =>
            refine ⟨[], by simp [pyGetD, hvg, pyTruthy, allStrings], ?_⟩
            simp [specGeneSymbolsAmended, hLnil, hvg, sortStrings,
              List.insertionSort, intercalate_nil]
        | bool b =>
            have hb : b = false := by simpa [pyTruthy, isStr] using h2
            subst hb
            refine ⟨[], by simp [pyGetD, hvg, pyTruthy, allStrings], ?_⟩
            simp [specGeneSymbolsAmended, hLnil, hvg, sortStrings,
              List.insertionSort, intercalate_nil]
        | num n =>
            have hn : n = 0 := by simpa [pyTruthy, isStr] using h2
            subst hn
            refine ⟨[], by simp [pyGetD, hvg, pyTruthy, allStrings], ?_⟩
            simp [specGeneSymbolsAmended, hLnil, hvg, sortStrings,
              List.insertionSort, intercalate_nil]
        | arr l2 =>
            have hl : l2 = [] := by
              simpa [pyTruthy, isStr, List.isEmpty_iff] using h2
            subst hl
            refine ⟨[], by simp [pyGetD, hvg, pyTruthy, allStrings], ?_⟩
            simp [specGeneSymbolsAmended, hLnil, hvg, sortStrings,
              List.insertionSort, intercalate_nil]
        | obj f2 =>
            have hf : f2 = [] := by
              simpa [pyTruthy, isStr, List.isEmpty_iff] using h2
            subst hf
            refine ⟨[], by simp [pyGetD, hvg, pyTruthy, allStrings], ?_⟩
            simp [specGeneSymbolsAmended, hLnil, hvg, sortStrings,
              List.insertionSort, intercalate_nil]
  · have hcond : ((tcs.filterMap
        (fun c => geneStrTruthy (dictGet c "gene_symbol"))).map
          Json.str).isEmpty = false := by
      simp [List.isEmpty_iff, hLnil]
    refine ⟨tcs.filterMap (fun c => geneStrTruthy (dictGet c "gene_symbol")),
      ?_, ?_⟩
    · rw [hcond]
      simp only [Bool.false_and, if_false]
      exact allStrings_map_str _
    · have hdednil : ¬((tcs.filterMap
          (fun c => geneStrTruthy (dictGet c "gene_symbol"))).dedup.isEmpty
            = true) := by
        simp [List.isEmpty_iff, List.dedup_eq_nil, hLnil]

      simp [specGeneSymbolsAmended, hdednil]

/-- `extract_annotations` on a non-empty list whose first element is a
well-shaped variant record (per §3's data model): the standard fields are
filled in, the gene symbols joined, and the additional-fields loop folded
over the result. -/
theorem extract_annotations_shaped (variant : List (String × Json))
    (rest : List Json) (tcs : List (List (String × Json)))
    (fields : List String)
    (htcs : getTcs variant = some tcs) (hok : geneValuesOk variant tcs = true) :
    extract_annotations (.arr (.obj variant :: rest)) fields =
      some (fields.foldl (extraStep variant tcs)
        (dictSet (dictSet (dictSet (dictSet (initAnnotDict fields)
          "start" (.str (pyStr (pyGetD variant "start" (.str "")))))
          "end" (.str (pyStr (pyGetD variant "end" (.str "")))))
          "most_severe_consequence"
            (pyGetD variant "most_severe_consequence" (.str "")))
          "gene_symbols" (.str (specGeneSymbolsAmended variant tcs)))) := by
  obtain ⟨strs, hstrs, hjoin⟩ := gene_joined_eq variant tcs hok
  unfold extract_annotations
  simp only [htcs, hstrs, hjoin]

/-! ## Claim C2: gene-symbol extraction -/

/-- Claim C2, amended: for a raw result that is a non-empty list with a
well-shaped first variant record, `gene_symbols` is the set of distinct
*non-empty* (truthy) `gene_symbol` string values found across the
transcript-consequence list, sorted lexicographically and comma-joined;
if that set is empty, it falls back to the variant's own `gene_symbol`
when that is a non-empty string; otherwise it is the empty string. -/
theorem claim2_gene_symbols_amended (variant : List (String × Json))
    (rest : List Json) (tcs : List (List (String × Json)))
    (htcs : getTcs variant = some tcs)
    (hok : geneValuesOk variant tcs = true) :
    ∃ A, extract_annotations (.arr (.obj variant :: rest)) [] = some A ∧
      dictGet A "gene_symbols" =
        some (.str (specGeneSymbolsAmended variant tcs)) := by
  refine ⟨_, extract_annotations_shaped variant rest tcs [] htcs hok, ?_⟩
  simp only [List.foldl_nil]
  exact dictGet_dictSet_self _ _ _

/-- Claim C2 as stated is false: a transcript consequence whose
`gene_symbol` is present but equal to `""` makes the claim's "set of
values found" non-empty (its sorted join is `""`), yet the code filters
the value out by truthiness and falls back to the variant's own
`gene_symbol`, here `"G"`. -/
theorem claim2_gene_symbols_counterexample :
    (∃ A, extract_annotations
        (.arr [.obj [("gene_symbol", .str "G"),
          ("transcript_consequences",
            .arr [.obj [("gene_symbol", .str "")]])]]) [] = some A ∧
      dictGet A "gene_symbols" = some (.str "G")) ∧
      specGeneSymbolsClaim
          [("gene_symbol", .str "G"),
           ("transcript_consequences",
             .arr [.obj [("gene_symbol", .str "")]])]
          [[("gene_symbol", .str "")]] = "" ∧
      ("G" : String) ≠ "" := by
  refine ⟨⟨_, rfl, rfl⟩, by decide, by decide⟩

/-- Witness for the amended C2: transcript consequences carrying
`GENE2, GENE1, GENE1` yield `"GENE1,GENE2"`. -/
theorem claim2_gene_symbols_witness :
    ∃ A, extract_annotations
        (.arr [.obj [("transcript_consequences", .arr
          [.obj [("gene_symbol", .str "GENE2")],
           .obj [("gene_symbol", .str "GENE1")],
           .obj [("gene_symbol", .str "GENE1")]])]]) [] = some A ∧
      dictGet A "gene_symbols" = some (.str "GENE1,GENE2") := by
  obtain ⟨A, hA, hg⟩ := claim2_gene_symbols_amended
    [("transcript_consequences", .arr
      [.obj [("gene_symbol", .str "GENE2")],
       .obj [("gene_symbol", .str "GENE1")],
       .obj [("gene_symbol", .str "GENE1")]])]
    []
    [[("gene_symbol", .str "GENE2")],
     [("gene_symbol", .str "GENE1")],
     [("gene_symbol", .str "GENE1")]]
    rfl (by decide)
  refine ⟨A, hA, ?_⟩
  rw [hg]
  rw [show specGeneSymbolsAmended
    [("transcript_consequences", .arr
      [.obj [("gene_symbol", .str "GENE2")],
       .obj [("gene_symbol", .str "GENE1")],
       .obj [("gene_symbol", .str "GENE1")]])]
    [[("gene_symbol", .str "GENE2")],
     [("gene_symbol", .str "GENE1")],
     [("gene_symbol", .str "GENE1")]] = "GENE1,GENE2" from by decide]

/-! ## Claim C9: additional-field extraction -/

theorem extraStep_eq (variant : List (String × Json))
    (tcs : List (List (String × Json))) (a : List (String × Json))
    (f : String) :
    extraStep variant tcs a f =
      match extraFound variant tcs f with
      | some s => dictSet a f (.str s)
      | none => a := by
  unfold extraStep extraFound
  by_cases h1 : dictHasKey variant f = true
  · simp [h1]
  · have h1f : dictHasKey variant f = false := Bool.eq_false_iff.mpr h1
    simp only [h1f, Bool.false_eq_true, if_false]
    by_cases h2 : pyTruthy (pyGetD variant "transcript_consequences" .null) = true
    · simp only [h2, if_true]
      cases firstWithKey tcs f with
      | none => rfl
      | some v => rfl
    · have h2f : pyTruthy (pyGetD variant "transcript_consequences" .null)
          = false := Bool.eq_false_iff.mpr h2
      simp [h2f]

theorem dictGet_foldl_extraStep (variant : List (String × Json))
    (tcs : List (List (String × Json))) (fields : List String)
    (a : List (String × Json)) (g : String) :
    dictGet (fields.foldl (extraStep variant tcs) a) g =
      match extraFound variant tcs g with
      | some s => if g ∈ fields then some (.str s) else dictGet a g
      | none => dictGet a g := by
  induction fields generalizing a with
  | nil =>
      cases extraFound variant tcs g with
      | none => rfl
      | some s => simp
  | cons f fs ih =>
      rw [List.foldl_cons, ih]
      cases heg : extraFound variant tcs g with
      | none =>
          rw [extraStep_eq]
          cases hef : extraFound variant tcs f with
          | none => rfl
          | some s =>
              by_cases hfg : g = f
              · subst hfg; rw [heg] at hef; cases hef
              · exact dictGet_dictSet_ne a f g _ hfg
      | some s =>
          by_cases hmem : g ∈ fs
          · simp [hmem, List.mem_cons]
          · simp only [hmem, if_false, List.mem_cons]
            by_cases hfg : g = f
            · subst hfg
              rw [extraStep_eq, heg]
              simp [dictGet_dictSet_self]
            · rw [extraStep_eq]
              cases hef : extraFound variant tcs f with
              | none => simp [hfg]
              | some s2 => simp [hfg, dictGet_dictSet_ne a f g _ hfg]

/-- `dictHasKey` in terms of `dictGet`. -/
theorem dictGet_eq_none_of_hasKey_false (d : List (String × Json))
    (k : String) (h : dictHasKey d k = false) : dictGet d k = none := by
  unfold dictHasKey at h
  cases hg : dictGet d k with
  | none => rfl
  | some v => rw [hg] at h; cases h

/-- The annotation just before the additional-fields loop holds `""` at
any key other than `gene_symbols` that the variant record lacks. -/
theorem dictGet_preExtras (variant : List (String × Json))
    (fields : List String) (f : String) (vg : Json)
    (hne : f ≠ "gene_symbols") (hnokey : dictHasKey variant f = false)
    (hf : f ∈ fields) :
    dictGet (dictSet (dictSet (dictSet (dictSet (initAnnotDict fields)
      "start" (.str (pyStr (pyGetD variant "start" (.str "")))))
      "end" (.str (pyStr (pyGetD variant "end" (.str "")))))
      "most_severe_consequence"
        (pyGetD variant "most_severe_consequence" (.str "")))
      "gene_symbols" vg) f = some (.str "") := by
  have hget := dictGet_eq_none_of_hasKey_false variant f hnokey
  rw [dictGet_dictSet_ne _ _ _ _ hne]
  by_cases hmsc : f = "most_severe_consequence"
  · subst hmsc
    rw [dictGet_dictSet_self]
    unfold pyGetD
    rw [hget]
    rfl
  · rw [dictGet_dictSet_ne _ _ _ _ hmsc]
    by_cases hend : f = "end"
    · subst hend
      rw [dictGet_dictSet_self]
      unfold pyGetD
      rw [hget]
      rfl
    · rw [dictGet_dictSet_ne _ _ _ _ hend]
      by_cases hstart : f = "start"
      · subst hstart
        rw [dictGet_dictSet_self]
        unfold pyGetD
        rw [hget]
        rfl
      · rw [dictGet_dictSet_ne _ _ _ _ hstart, dictGet_initAnnotDict]
        simp [hf]

theorem extraFound_none_cases (variant : List (String × Json))
    (tcs : List (List (String × Json))) (f : String)
    (htcs : getTcs variant = some tcs)
    (hef : extraFound variant tcs f = none) :
    dictHasKey variant f = false ∧ specExtraField variant tcs f = "" := by
  unfold extraFound at hef
  by_cases h1 : dictHasKey variant f = true
  · rw [if_pos h1] at hef; cases hef
  · have h1f : dictHasKey variant f = false := Bool.eq_false_iff.mpr h1
    refine ⟨h1f, ?_⟩
    have hget := dictGet_eq_none_of_hasKey_false variant f h1f
    unfold specExtraField
    simp only [hget]
    rw [if_neg h1] at hef
    by_cases h2 : pyTruthy (pyGetD variant "transcript_consequences" .null)
        = true
    · rw [if_pos h2] at hef
      cases hfk : firstWithKey tcs f with
      | none => simp [hfk]
      | some v => rw [hfk] at hef; simp at hef
    · have htnil : tcs = [] := by
        by_contra hne2
        exact h2 ((getTcs_truthy variant tcs htcs).mpr hne2)
      subst htnil
      simp [firstWithKey]

theorem extraFound_some_spec (variant : List (String × Json))
    (tcs : List (List (String × Json))) (f : String) (s : String)
    (hef : extraFound variant tcs f = some s) :
    specExtraField variant tcs f = s := by
  unfold extraFound at hef
  by_cases h1 : dictHasKey variant f = true
  · rw [if_pos h1] at hef
    unfold dictHasKey at h1
    obtain ⟨v, hv⟩ := Option.isSome_iff_exists.mp h1
    unfold specExtraField
    simp only [hv]
    simp only [Option.some.injEq] at hef
    rw [← hef]
    unfold pyGetD
    rw [hv]
    rfl
  · rw [if_neg h1] at hef
    have h1f : dictHasKey variant f = false := Bool.eq_false_iff.mpr h1
    have hget := dictGet_eq_none_of_hasKey_false variant f h1f
    unfold specExtraField
    simp only [hget]
    by_cases h2 : pyTruthy (pyGetD variant "transcript_consequences" .null)
        = true
    · rw [if_pos h2] at hef
      cases hfk : firstWithKey tcs f with
      | none => rw [hfk] at hef; simp at hef
      | some v =>
          rw [hfk] at hef
          simp only [hfk]
          simpa using hef
    · rw [if_neg h2] at hef; cases hef

/-- Claim C9, amended: for every requested extra field name *other than*
`gene_symbols` and every shaped non-empty-list raw result,
`extract_annotations` first checks the first variant record for a
same-named key; if absent it scans the transcript-consequence list in
order, taking the value of the first consequence containing the key; if
never found the field remains the empty string; every extracted value is
converted to its string representation.  (A requested field named
`gene_symbols` that is never found instead retains the value computed by
the standard gene-symbol extraction.) -/
theorem claim9_extra_fields_amended (variant : List (String × Json))
    (rest : List Json) (tcs : List (List (String × Json)))
    (fields : List String) (f : String)
    (htcs : getTcs variant = some tcs)
    (hok : geneValuesOk variant tcs = true)
    (hf : f ∈ fields) (hne : f ≠ "gene_symbols") :
    ∃ A, extract_annotations (.arr (.obj variant :: rest)) fields = some A ∧
      dictGet A f = some (.str (specExtraField variant tcs f)) := by
  refine ⟨_, extract_annotations_shaped variant rest tcs fields htcs hok, ?_⟩
  rw [dictGet_foldl_extraStep]
  cases hef : extraFound variant tcs f with
  | some s =>
      rw [extraFound_some_spec variant tcs f s hef]
      simp [hf]
  | none =>
      obtain ⟨hnokey, hspec⟩ := extraFound_none_cases variant tcs f htcs hef
      rw [hspec]
      exact dictGet_preExtras variant fields f _ hne hnokey hf

/-- Claim C9 as stated is false for a requested name that collides with
`gene_symbols`: here the name is never found as a key on the variant or
any consequence, yet the field does not remain the empty string — it
keeps the joined value `"G"` computed by the gene-symbol extraction. -/
theorem claim9_extra_fields_counterexample :
    (∃ A, extract_annotations
        (.arr [.obj [("transcript_consequences",
          .arr [.obj [("gene_symbol", .str "G")]])]])
        ["gene_symbols"] = some A ∧
      dictGet A "gene_symbols" = some (.str "G")) ∧
      ("G" : String) ≠ "" := by
  refine ⟨⟨_, rfl, rfl⟩, by decide⟩

/-- Witness for the amended C9: `impact` is requested, absent on the
variant, and found on the first transcript consequence. -/
theorem claim9_extra_fields_witness :
    ∃ A, extract_annotations
        (.arr [.obj [("transcript_consequences",
          .arr [.obj [("impact", .str "HIGH")]])]]) ["impact"] = some A ∧
      dictGet A "impact" = some (.str "HIGH") := by
  obtain ⟨A, hA, hi⟩ := claim9_extra_fields_amended
    [("transcript_consequences", .arr [.obj [("impact", .str "HIGH")]])]
    [] [[("impact", .str "HIGH")]] ["impact"] "impact"
    rfl (by decide) (by decide) (by decide)
  refine ⟨A, hA, ?_⟩
  rw [hi]
  rw [show specExtraField
    [("transcript_consequences", .arr [.obj [("impact", .str "HIGH")]])]
    [[("impact", .str "HIGH")]] "impact" = "HIGH" from by decide]

/-! ## Claim C4: parsing back the written TSV -/

theorem csvRun_append (st : CsvState) (xs ys : List Char) :
    csvRun st (xs ++ ys) = csvRun (csvRun st xs) ys :=
  List.foldl_append _ _ _ _

theorem run_unquoted (cs : List Char) :
    ∀ (f : List Char) (rec : List String) (out : List (List String)),
      (∀ c ∈ cs, c ≠ '\t' ∧ c ≠ '\r') →
      csvRun ⟨.unquoted, f, rec, out⟩ cs = ⟨.unquoted, f ++ cs, rec, out⟩ := by
  induction cs with
  | nil => intro f rec out _; simp [csvRun]
  | cons c cs ih =>
      intro f rec out h
      obtain ⟨h1, h2⟩ := h c (List.mem_cons_self c cs)
      show csvRun (csvStep ⟨.unquoted, f, rec, out⟩ c) cs = _
      rw [show csvStep ⟨.unquoted, f, rec, out⟩ c =
        ⟨.unquoted, f ++ [c], rec, out⟩ from by simp [csvStep, h1, h2]]
      rw [ih (f ++ [c]) rec out (fun x hx => h x (List.mem_cons_of_mem c hx))]
      simp

theorem run_quoted (cs : List Char) :
    ∀ (f : List Char) (rec : List String) (out : List (List String)),
      csvRun ⟨.quoted, f, rec, out⟩ (escQuotes cs) =
        ⟨.quoted, f ++ cs, rec, out⟩ := by
  induction cs with
  | nil => intro f rec out; simp [escQuotes, csvRun]
  | cons c cs ih =>
      intro f rec out
      by_cases hc : c = '"'
      · subst hc
        show csvRun _ ('"' :: '"' :: escQuotes cs) = _
        show csvRun (csvStep (csvStep ⟨.quoted, f, rec, out⟩ '"') '"')
          (escQuotes cs) = _
        rw [show csvStep ⟨.quoted, f, rec, out⟩ '"' =
          ⟨.quoteInQuoted, f, rec, out⟩ from by simp [csvStep]]
        rw [show csvStep ⟨.quoteInQuoted, f, rec, out⟩ '"' =
          ⟨.quoted, f ++ ['"'], rec, out⟩ from by simp [csvStep]]
        rw [ih]
        simp
      · rw [show escQuotes (c :: cs) = c :: escQuotes cs from by
          simp [escQuotes, hc]]
        show csvRun (csvStep ⟨.quoted, f, rec, out⟩ c) (escQuotes cs) = _
        rw [show csvStep ⟨.quoted, f, rec, out⟩ c =
          ⟨.quoted, f ++ [c], rec, out⟩ from by simp [csvStep, hc]]
        rw [ih]
        simp

theorem not_needsQuote_chars (s : String) (h : needsQuote s = false) :
    ∀ c ∈ s.data, c ≠ '\t' ∧ c ≠ '"' ∧ c ≠ '\r' ∧ c ≠ '\n' := by
  intro c hc
  unfold needsQuote at h
  have := List.any_eq_false.mp h c hc
  simp only [Bool.or_eq_true, not_or] at this
  refine ⟨?_, ?_, ?_, ?_⟩ <;> simp_all

theorem run_encField_tab (s : String) (rec : List String)
    (out : List (List String)) :
    csvRun ⟨.fieldStart, [], rec, out⟩ ((encField s).data ++ ['\t']) =
      ⟨.fieldStart, [], rec ++ [s], out⟩ := by
  by_cases hq : needsQuote s = true
  · rw [show encField s = ⟨'"' :: escQuotes s.data ++ ['"']⟩ from by
      simp [encField, hq]]
    show csvRun _ ('"' :: (escQuotes s.data ++ ['"']) ++ ['\t']) = _
    rw [show ('"' :: (escQuotes s.data ++ ['"'])) ++ ['\t'] =
      '"' :: (escQuotes s.data ++ ['"', '\t']) from by simp]
    show csvRun (csvStep ⟨.fieldStart, [], rec, out⟩ '"')
      (escQuotes s.data ++ ['"', '\t']) = _
    rw [show csvStep ⟨.fieldStart, [], rec, out⟩ '"' =
      ⟨.quoted, [], rec, out⟩ from by simp [csvStep]]
    rw [csvRun_append, run_quoted]
    show csvRun (csvStep ⟨.quoted, s.data, rec, out⟩ '"') ['\t'] = _
    rw [show csvStep ⟨.quoted, s.data, rec, out⟩ '"' =
      ⟨.quoteInQuoted, s.data, rec, out⟩ from by simp [csvStep]]
    show csvStep ⟨.quoteInQuoted, s.data, rec, out⟩ '\t' = _
    simp [csvStep]
  · have hqf : needsQuote s = false := Bool.eq_false_iff.mpr hq
    have hplain := not_needsQuote_chars s hqf
    rw [show encField s = s from by simp [encField, hqf]]
    obtain ⟨d⟩ := s
    cases d with
    | nil =>
        show csvStep ⟨.fieldStart, [], rec, out⟩ '\t' = _
        simp [csvStep]
    | cons c cs =>
        show csvRun (csvStep ⟨.fieldStart, [], rec, out⟩ c) (cs ++ ['\t']) = _
        have hcp := hplain c (List.mem_cons_self c cs)
        rw [show csvStep ⟨.fieldStart, [], rec, out⟩ c =
          ⟨.unquoted, [c], rec, out⟩ from by
            simp [csvStep, hcp.1, hcp.2.1, hcp.2.2.1]]
        rw [csvRun_append]
        rw [run_unquoted cs [c] rec out (fun x hx =>
          ⟨(hplain x (List.mem_cons_of_mem c hx)).1,
           (hplain x (List.mem_cons_of_mem c hx)).2.2.1⟩)]
        show csvStep ⟨.unquoted, c :: cs, rec, out⟩ '\t' = _
        simp [csvStep]

theorem run_encField_crlf (s : String) (rec : List String)
    (out : List (List String)) :
    csvRun ⟨.fieldStart, [], rec, out⟩ ((encField s).data ++ ['\r', '\n']) =
      ⟨.fieldStart, [], [], out ++ [rec ++ [s]]⟩ := by
  by_cases hq : needsQuote s = true
  · rw [show encField s = ⟨'"' :: escQuotes s.data ++ ['"']⟩ from by
      simp [encField, hq]]
    show csvRun _ ('"' :: (escQuotes s.data ++ ['"']) ++ ['\r', '\n']) = _
    rw [show ('"' :: (escQuotes s.data ++ ['"'])) ++ ['\r', '\n'] =
      '"' :: (escQuotes s.data ++ ['"', '\r', '\n']) from by simp]
    show csvRun (csvStep ⟨.fieldStart, [], rec, out⟩ '"')
      (escQuotes s.data ++ ['"', '\r', '\n']) = _
    rw [show csvStep ⟨.fieldStart, [], rec, out⟩ '"' =
      ⟨.quoted, [], rec, out⟩ from by simp [csvStep]]
    rw [csvRun_append, run_quoted]
    show csvRun (csvStep ⟨.quoted, s.data, rec, out⟩ '"') ['\r', '\n'] = _
    rw [show csvStep ⟨.quoted, s.data, rec, out⟩ '"' =
      ⟨.quoteInQuoted, s.data, rec, out⟩ from by simp [csvStep]]
    show csvRun (csvStep ⟨.quoteInQuoted, s.data, rec, out⟩ '\r') ['\n'] = _
    rw [show csvStep ⟨.quoteInQuoted, s.data, rec, out⟩ '\r' =
      ⟨.sawCR, [], rec ++ [s], out⟩ from by simp [csvStep]]
    show csvStep ⟨.sawCR, [], rec ++ [s], out⟩ '\n' = _
    simp [csvStep]
  · have hqf : needsQuote s = false := Bool.eq_false_iff.mpr hq
    have hplain := not_needsQuote_chars s hqf
    rw [show encField s = s from by simp [encField, hqf]]
    obtain ⟨d⟩ := s
    cases d with
    | nil =>
        show csvRun (csvStep ⟨.fieldStart, [], rec, out⟩ '\r') ['\n'] = _
        rw [show csvStep ⟨.fieldStart, [], rec, out⟩ '\r' =
          ⟨.sawCR, [], rec ++ [""], out⟩ from by simp [csvStep]]
        show csvStep ⟨.sawCR, [], rec ++ [""], out⟩ '\n' = _
        simp [csvStep]
    | cons c cs =>
        show csvRun (csvStep ⟨.fieldStart, [], rec, out⟩ c)
          (cs ++ ['\r', '\n']) = _
        have hcp := hplain c (List.mem_cons_self c cs)
        rw [show csvStep ⟨.fieldStart, [], rec, out⟩ c =
          ⟨.unquoted, [c], rec, out⟩ from by
            simp [csvStep, hcp.1, hcp.2.1, hcp.2.2.1]]
        rw [csvRun_append]
        rw [run_unquoted cs [c] rec out (fun x hx =>
          ⟨(hplain x (List.mem_cons_of_mem c hx)).1,
           (hplain x (List.mem_cons_of_mem c hx)).2.2.1⟩)]
        show csvRun (csvStep ⟨.unquoted, c :: cs, rec, out⟩ '\r') ['\n'] = _
        rw [show csvStep ⟨.unquoted, c :: cs, rec, out⟩ '\r' =
          ⟨.sawCR, [], rec ++ [⟨c :: cs⟩], out⟩ from by simp [csvStep]]
        show csvStep ⟨.sawCR, [], rec ++ [⟨c :: cs⟩], out⟩ '\n' = _
        simp [csvStep]

theorem data_append (a b : String) : (a ++ b).data = a.data ++ b.data := rfl

theorem intercalate_go_append (s x y : String) :
    ∀ rest, String.intercalate.go (x ++ y) s rest =
      x ++ String.intercalate.go y s rest := by
  intro rest
  induction rest generalizing y with
  | nil => rfl
  | cons r rs ih =>
      show String.intercalate.go (x ++ y ++ s ++ r) s rs = _
      rw [show x ++ y ++ s ++ r = x ++ (y ++ s ++ r) from by
        simp [String.append_assoc]]
      rw [ih (y ++ s ++ r)]
      rfl

theorem intercalate_cons2 (s a b : String) (rest : List String) :
    String.intercalate s (a :: b :: rest) =
      a ++ s ++ String.intercalate s (b :: rest) := by
  show String.intercalate.go a s (b :: rest) = _
  show String.intercalate.go (a ++ s ++ b) s rest = _
  rw [show a ++ s ++ b = (a ++ s) ++ b from by simp [String.append_assoc]]
  rw [intercalate_go_append s (a ++ s) b rest]
  rfl

theorem encRecord_single_data (c : String) :
    (encRecord [c]).data = (encField c).data ++ ['\r', '\n'] := by
  unfold encRecord
  rw [show String.intercalate "\t" ([c].map encField) = encField c from by
    simp [intercalate_single]]
  rfl

theorem encRecord_cons_data (c : String) (cs : List String) (h : cs ≠ []) :
    (encRecord (c :: cs)).data =
      (encField c).data ++ '\t' :: (encRecord cs).data := by
  obtain ⟨b, bs, rfl⟩ : ∃ b bs, cs = b :: bs := by
    cases cs with
    | nil => exact absurd rfl h
    | cons b bs => exact ⟨b, bs, rfl⟩
  unfold encRecord
  simp only [List.map_cons]
  rw [intercalate_cons2]
  rw [show encField c ++ "\t" ++
      String.intercalate "\t" (encField b :: bs.map encField) ++ "\r\n" =
    encField c ++ ("\t" ++
      (String.intercalate "\t" (encField b :: bs.map encField) ++ "\r\n"))
    from by simp [String.append_assoc]]
  rw [data_append]
  rfl

theorem run_record (cells : List String) :
    ∀ (rec : List String) (out : List (List String)), cells ≠ [] →
      csvRun ⟨.fieldStart, [], rec, out⟩ (encRecord cells).data =
        ⟨.fieldStart, [], [], out ++ [rec ++ cells]⟩ := by
  induction cells with
  | nil => intro rec out h; exact absurd rfl h
  | cons c cs ih =>
      intro rec out _
      cases cs with
      | nil =>
          rw [encRecord_single_data, run_encField_crlf]
      | cons b bs =>
          rw [encRecord_cons_data c (b :: bs) (by simp)]
          rw [show (encField c).data ++ '\t' :: (encRecord (b :: bs)).data =
            ((encField c).data ++ ['\t']) ++ (encRecord (b :: bs)).data
            from by simp]
          rw [csvRun_append, run_encField_tab]
          rw [ih (rec ++ [c]) out (by simp)]
          simp

theorem join_go_append (x y : String) :
    ∀ (as : List String),
      List.foldl (fun r s => r ++ s) (x ++ y) as =
        x ++ List.foldl (fun r s => r ++ s) y as := by
  intro as
  induction as generalizing y with
  | nil => rfl
  | cons a rest ih =>
      show List.foldl _ (x ++ y ++ a) rest = _
      rw [show x ++ y ++ a = x ++ (y ++ a) from by simp [String.append_assoc]]
      rw [ih (y ++ a)]
      rfl

theorem join_cons (a : String) (as : List String) :
    String.join (a :: as) = a ++ String.join as := by
  show List.foldl _ ("" ++ a) as = _
  rw [show ("" : String) ++ a = a ++ "" from by simp]
  rw [join_go_append a "" as]
  rfl

theorem run_file (rows : List (List String)) :
    ∀ out, (∀ r ∈ rows, r ≠ []) →
      csvRun ⟨.fieldStart, [], [], out⟩
          (String.join (rows.map encRecord)).data =
        ⟨.fieldStart, [], [], out ++ rows⟩ := by
  induction rows with
  | nil => intro out _; simp [String.join, csvRun]
  | cons r rs ih =>
      intro out h
      simp only [List.map_cons]
      rw [join_cons, data_append, csvRun_append]
      rw [run_record r [] out (h r (List.mem_cons_self r rs))]
      simp only [List.nil_append]
      rw [ih (out ++ [r]) (fun x hx => h x (List.mem_cons_of_mem r hx))]
      simp

/-- Parsing the written file back recovers exactly the grid of cells that
`write_tsv` laid out. -/
theorem csvParse_write_tsv (annotations : List (List (String × String)))
    (rsids : List String) :
    csvParse (write_tsv annotations rsids) = write_rows annotations rsids := by
  have hne : ∀ r ∈ write_rows annotations rsids, r ≠ [] := by
    intro r hr
    unfold write_rows at hr
    rcases List.mem_cons.mp hr with rfl | hr2
    · unfold write_fieldnames
      simp [standard_fields]
    · obtain ⟨p, _, rfl⟩ := List.mem_map.mp hr2
      unfold write_fieldnames
      simp [standard_fields]
  unfold csvParse write_tsv
  rw [show csvInit = ⟨.fieldStart, [], [], []⟩ from rfl]
  rw [run_file (write_rows annotations rsids) [] hne]
  simp

/-- Claim C4, amended: for equal-length, order-aligned identifiers and
annotations *none of which contains an `rsid` key*, writing the report
with `write_tsv` and parsing the produced tab-separated file yields the
header followed by one data row per pair in input order; the identifier
column of the Nth row is the Nth identifier and every other column holds
the Nth annotation's value for that field (empty when the annotation lacks
the field). -/
theorem claim4_roundtrip_amended (rsids : List String)
    (annotations : List (List (String × String)))
    (_hlen : rsids.length = annotations.length)
    (hnorsid : ∀ a ∈ annotations, dictGetS a "rsid" = none) :
    csvParse (write_tsv annotations rsids) =
      write_fieldnames annotations ::
        (rsids.zip annotations).map (fun p =>
          (write_fieldnames annotations).map (fun f =>
            if f = "rsid" then p.1 else (dictGetS p.2 f).getD "")) := by
  rw [csvParse_write_tsv]
  unfold write_rows
  congr 1
  apply List.map_congr_left
  intro p hp
  apply List.map_congr_left
  intro f _
  unfold rowCell
  have hpa : p.2 ∈ annotations := (List.of_mem_zip hp).2
  by_cases hf : f = "rsid"
  · subst hf
    rw [hnorsid p.2 hpa]
    simp
  · cases hg : dictGetS p.2 f with
    | none => simp [hf]
    | some v => simp [hf]

/-- Claim C4 as stated is false: an annotation that itself contains an
`rsid` key overrides the identifier in the row dict
`{"rsid": rsid, **annotation}`, so the identifier column no longer equals
the input identifier. -/
theorem claim4_roundtrip_counterexample :
    csvParse (write_tsv [[("rsid", "HACK")]] ["rs1"]) =
      [["rsid", "start", "end", "most_severe_consequence", "gene_symbols"],
       ["HACK", "", "", "", ""]] ∧
      ("HACK" : String) ≠ "rs1" := by
  constructor
  · decide
  · decide

/-- Witness for the amended C4 at concrete input, with a value that needs
quoting (an embedded tab) and an annotation missing some columns. -/
theorem claim4_roundtrip_witness :
    csvParse (write_tsv [[("start", "a\tb")], []] ["rs1", "rs2"]) =
      [["rsid", "start", "end", "most_severe_consequence", "gene_symbols"],
       ["rs1", "a\tb", "", "", ""],
       ["rs2", "", "", "", ""]] := by
  have h := claim4_roundtrip_amended ["rs1", "rs2"] [[("start", "a\tb")], []]
    (by decide) (by decide)
  rw [h]
  decide

end VariantAnnotator
